import Mathlib

/-!
Verification development for the fleshutils repository.

The repository's only visible source file is `setup.py`, which carries
packaging metadata: distribution name, version, author, an empty package
list, empty package data, and the list of executable scripts installed
under `bin/`.  We embed that metadata directly.

The specification further describes a line-oriented stream-filter core
(LineReader, FieldExtractor, numeric-delta / formatting / hashing
transforms, ContextWindow, StreamPipeline).  No implementation of that
core is present under `src/`, so those components are modelled from the
specification text; each such definition carries a doc comment starting
with `Modelled from the spec:`.
-/

set_option maxRecDepth 4000

/-- Embedding of the keyword arguments passed to `setup(...)` in
`src/setup.py`: the distribution metadata of fleshutils. -/
structure SetupConfig where
  name : String
  version : String
  description : String
  author : String
  author_email : String
  packages : List String
  package_data : List (String × List String)
  scripts : List String

/-- The concrete `setup(...)` call of `src/setup.py`, lines 5-27. -/
def fleshutilsSetup : SetupConfig :=
  { name := "fleshutils"
  , version := "0.1"
  , description := "Collection of scripts that supplement coreutils"
  , author := "Antti Kervinen"
  , author_email := "antti.kervinen@gmail.com"
  , packages := []
  , package_data := []
  , scripts :=
      [ "bin/bracketshr"
      , "bin/epochfilt"
      , "bin/go-mod-tree"
      , "bin/grepctx"
      , "bin/hashfilt"
      , "bin/igo"
      , "bin/longestcommon"
      , "bin/numdelta"
      , "bin/numhr"
      , "bin/procdata"
      , "bin/tinypwd"
      , "bin/trace-system-execve"
      , "bin/trace-system-open-write"
      , "bin/trace-system-network"
      , "bin/tsl" ]
  }

/-- C1: the setup configuration enumerates the utility scripts named in the
spec — the numeric-delta filter (`numdelta`), the hash filter (`hashfilt`),
the grep-with-context tool (`grepctx`), the epoch-timestamp filter
(`epochfilt`), and the process-tracing wrappers (`trace-system-*`) — while
carrying none of their internal logic: the distribution declares no Python
packages and no package data, so only the script names are visible. -/
theorem setup_enumerates_scripts_only :
    "bin/numdelta" ∈ fleshutilsSetup.scripts ∧
    "bin/hashfilt" ∈ fleshutilsSetup.scripts ∧
    "bin/grepctx" ∈ fleshutilsSetup.scripts ∧
    "bin/epochfilt" ∈ fleshutilsSetup.scripts ∧
    "bin/trace-system-execve" ∈ fleshutilsSetup.scripts ∧
    "bin/trace-system-open-write" ∈ fleshutilsSetup.scripts ∧
    "bin/trace-system-network" ∈ fleshutilsSetup.scripts ∧
    fleshutilsSetup.packages = [] ∧
    fleshutilsSetup.package_data = [] := by
  refine ⟨?_, ?_, ?_, ?_, ?_, ?_, ?_, rfl, rfl⟩ <;> decide

/-- C10: the distribution declares no Python packages and no package data,
so installing it adds no importable Python modules; the only installed
artifacts are the fifteen executable scripts listed under `bin/`. -/
theorem setup_no_packages_fifteen_scripts :
    fleshutilsSetup.packages = [] ∧
    fleshutilsSetup.package_data = [] ∧
    fleshutilsSetup.scripts.length = 15 ∧
    fleshutilsSetup.scripts.all
      (fun s => "bin/".data.isPrefixOf s.data) = true := by
  refine ⟨rfl, rfl, rfl, ?_⟩
  decide

/-- Modelled from the spec: a logical line produced by LineReader, tagged
with an ordinal index; `raw_text` is the line's byte content without its
terminating newline (spec section 3, Data Model: Line).  The `fields`
component is computed lazily by FieldExtractor and is kept separate. -/
structure Line where
  ordinal : Nat
  raw_text : List Char
  deriving DecidableEq

/-- Modelled from the spec: LineReader's split of an input byte stream
into logical lines — a logical line is a maximal run of bytes between
newline delimiters (or stream start/end); the final partial line without
a trailing newline is still emitted (spec sections 4.1 and Glossary). -/
def splitLines : List Char → List (List Char)
  | [] => []
  | c :: rest =>
    if c = '\n' then [] :: splitLines rest
    else
      match splitLines rest with
      | [] => [[c]]
      | l :: ls => (c :: l) :: ls

/-- Modelled from the spec: `open(source) -> sequence of Line`; each line
is tagged with its ordinal index (spec section 4.1). -/
def lineReader (s : List Char) : List Line :=
  (splitLines s).enum.map (fun p => { ordinal := p.1, raw_text := p.2 })

/-- Whether the source byte stream ends with a newline byte. -/
def endsWithNL (s : List Char) : Bool :=
  s.getLast? == some '\n'

/-- Modelled from the spec: the round-trip reconstruction of section 8 —
concatenate `raw_text + "\n"` for every produced Line, restoring the
final newline only if the source had one. -/
def restoreText (ls : List Line) (trailing : Bool) : List Char :=
  let j := (ls.map (fun l => l.raw_text ++ ['\n'])).flatten
  if trailing then j else j.dropLast


/-- Helper: the round-trip gluing at the level of raw line contents. -/
def glue : List (List Char) → Bool → List Char
  | L, true => (L.map (fun l => l ++ ['\n'])).flatten
  | L, false => ((L.map (fun l => l ++ ['\n'])).flatten).dropLast

theorem splitLines_cons_nl (rest : List Char) :
    splitLines ('\n' :: rest) = [] :: splitLines rest := by
  simp [splitLines]

theorem splitLines_cons_of_nil (c : Char) (rest : List Char) (hc : c ≠ '\n')
    (h : splitLines rest = []) : splitLines (c :: rest) = [[c]] := by
  rw [splitLines, if_neg hc, h]

theorem splitLines_cons_of_eq (c : Char) (rest l : List Char)
    (ls : List (List Char)) (hc : c ≠ '\n') (h : splitLines rest = l :: ls) :
    splitLines (c :: rest) = (c :: l) :: ls := by
  rw [splitLines, if_neg hc, h]

theorem splitLines_ne_nil (s : List Char) (hs : s ≠ []) : splitLines s ≠ [] := by
  match s with
  | [] => exact absurd rfl hs
  | c :: rest =>
    by_cases hc : c = '\n'
    · subst hc
      rw [splitLines_cons_nl]
      simp
    · cases h : splitLines rest with
      | nil => rw [splitLines_cons_of_nil c rest hc h]; simp
      | cons l ls => rw [splitLines_cons_of_eq c rest l ls hc h]; simp

theorem joinNL_ne_nil (L : List (List Char)) (hL : L ≠ []) :
    (L.map (fun l => l ++ ['\n'])).flatten ≠ [] := by
  cases L with
  | nil => exact absurd rfl hL
  | cons l ls => simp

theorem glue_splitLines (s : List Char) :
    glue (splitLines s) (endsWithNL s) = s := by
  induction s with
  | nil => rfl
  | cons c rest ih =>
    by_cases hc : c = '\n'
    · subst hc
      cases rest with
      | nil => rfl
      | cons r rs =>
        have hends : endsWithNL ('\n' :: r :: rs) = endsWithNL (r :: rs) := by
          simp [endsWithNL, List.getLast?_cons_cons]
        rw [splitLines_cons_nl, hends]
        cases ht : endsWithNL (r :: rs) with
        | true =>
          rw [ht] at ih
          simp only [glue, List.map_cons, List.flatten_cons, List.nil_append,
            List.singleton_append] at ih ⊢
          rw [ih]
        | false =>
          rw [ht] at ih
          have hne : ((splitLines (r :: rs)).map (fun l => l ++ ['\n'])).flatten ≠ [] :=
            joinNL_ne_nil _ (splitLines_ne_nil _ (by simp))
          simp only [glue, List.map_cons, List.flatten_cons, List.nil_append,
            List.singleton_append] at ih ⊢
          rw [List.dropLast_cons_of_ne_nil hne, ih]
    · cases rest with
      | nil =>
        have hends : endsWithNL [c] = false := by
          simp only [endsWithNL, beq_eq_false_iff_ne, ne_eq, Option.some.injEq]
          simpa using hc
        rw [splitLines_cons_of_nil c [] hc rfl, hends]
        show ([c] ++ ['\n'] ++ ([] : List (List Char)).flatten).dropLast = [c]
        simp
      | cons r rs =>
        have hends : endsWithNL (c :: r :: rs) = endsWithNL (r :: rs) := by
          simp [endsWithNL, List.getLast?_cons_cons]
        cases h : splitLines (r :: rs) with
        | nil => exact absurd h (splitLines_ne_nil _ (by simp))
        | cons l ls =>
          rw [splitLines_cons_of_eq c _ _ _ hc h, hends]
          rw [h] at ih
          cases ht : endsWithNL (r :: rs) with
          | true =>
            rw [ht] at ih
            simp only [glue, List.map_cons, List.flatten_cons] at ih ⊢
            rw [List.cons_append, List.cons_append, ih]
          | false =>
            rw [ht] at ih
            simp only [glue, List.map_cons, List.flatten_cons] at ih ⊢
            have hne : (l ++ ['\n']) ++ (ls.map (fun x => x ++ ['\n'])).flatten ≠ [] := by
              simp
            rw [List.cons_append, List.cons_append,
              List.dropLast_cons_of_ne_nil hne, ih]

theorem lineReader_raw (s : List Char) :
    (lineReader s).map Line.raw_text = splitLines s := by
  simp only [lineReader, List.map_map]
  have hcomp : (Line.raw_text ∘ fun p : Nat × List Char =>
      ({ ordinal := p.1, raw_text := p.2 } : Line)) = Prod.snd := by
    funext p
    rfl
  rw [hcomp, List.enum_map_snd]

theorem restoreText_eq_glue (ls : List Line) (t : Bool) :
    restoreText ls t = glue (ls.map Line.raw_text) t := by
  cases t <;> simp [restoreText, glue, List.map_map, Function.comp_def]

theorem splitLines_append_nl (s t : List Char) :
    splitLines (s ++ '\n' :: t) = splitLines (s ++ ['\n']) ++ splitLines t := by
  induction s with
  | nil => simp [splitLines_cons_nl, splitLines]
  | cons c s' ih =>
    by_cases hc : c = '\n'
    · subst hc
      rw [List.cons_append, List.cons_append, splitLines_cons_nl,
        splitLines_cons_nl, ih, List.cons_append]
    · cases h : splitLines (s' ++ ['\n']) with
      | nil => exact absurd h (splitLines_ne_nil _ (by simp))
      | cons l ls =>
        have h2 : splitLines (s' ++ '\n' :: t) = l :: (ls ++ splitLines t) := by
          rw [ih, h, List.cons_append]
        calc splitLines ((c :: s') ++ '\n' :: t)
            = splitLines (c :: (s' ++ '\n' :: t)) := by rw [List.cons_append]
          _ = (c :: l) :: (ls ++ splitLines t) :=
              splitLines_cons_of_eq _ _ _ _ hc h2
          _ = ((c :: l) :: ls) ++ splitLines t := by rw [List.cons_append]
          _ = splitLines (c :: (s' ++ ['\n'])) ++ splitLines t := by
              rw [splitLines_cons_of_eq _ _ _ _ hc h]
          _ = splitLines ((c :: s') ++ ['\n']) ++ splitLines t := by
              rw [List.cons_append]

theorem splitLines_no_nl (t : List Char) (ht : t ≠ []) (hn : '\n' ∉ t) :
    splitLines t = [t] := by
  induction t with
  | nil => exact absurd rfl ht
  | cons c t' ih =>
    have hc : c ≠ '\n' := fun h => hn (h ▸ List.mem_cons_self c t')
    have hn' : '\n' ∉ t' := fun h => hn (List.mem_cons_of_mem c h)
    cases t' with
    | nil => exact splitLines_cons_of_nil c [] hc rfl
    | cons r rs => exact splitLines_cons_of_eq c _ _ _ hc (ih (by simp) hn')

/-- C2: LineReader round-trip — for every finite input byte stream,
concatenating `raw_text` plus a newline for every Line produced by
LineReader, restoring the final newline only if the source ended with
one, reconstructs the original input byte-for-byte; and a final partial
line without a trailing newline is still emitted as a Line (here: the
content after the last newline appears as one extra produced line). -/
theorem lineReader_roundtrip :
    (∀ s : List Char, restoreText (lineReader s) (endsWithNL s) = s) ∧
    (∀ s t : List Char, t ≠ [] → '\n' ∉ t →
      (lineReader (s ++ '\n' :: t)).map Line.raw_text =
        (lineReader (s ++ ['\n'])).map Line.raw_text ++ [t]) := by
  constructor
  · intro s
    rw [restoreText_eq_glue, lineReader_raw]
    exact glue_splitLines s
  · intro s t ht hn
    rw [lineReader_raw, lineReader_raw, splitLines_append_nl,
      splitLines_no_nl t ht hn]

/-- Witness: the round-trip theorem applied at the concrete inputs
`"x\n"` and `"a\n" ++ "bc"`. -/
theorem lineReader_roundtrip_witness :
    restoreText (lineReader ['x', '\n']) (endsWithNL ['x', '\n']) = ['x', '\n'] ∧
    (lineReader (['a'] ++ '\n' :: ['b', 'c'])).map Line.raw_text =
      (lineReader (['a'] ++ ['\n'])).map Line.raw_text ++ [['b', 'c']] :=
  ⟨lineReader_roundtrip.1 ['x', '\n'],
   lineReader_roundtrip.2 ['a'] ['b', 'c'] (by decide) (by decide)⟩

/-- Modelled from the spec: TransformResult (spec section 3) — a Transform
may suppress a line (emit=false); for the numeric transforms the payload
is the computed number, rendered to text downstream. -/
structure TransformResult where
  emit : Bool
  output : Option Int
  deriving DecidableEq

/-- Modelled from the spec: the numeric-delta transform of section 4.3,
`delta(history, current)`; the updated history is returned alongside the
TransformResult (history is pipeline-run-scoped state). -/
def delta (history : Option Int) (current : Int) : TransformResult × Option Int :=
  match history with
  | none => ({ emit := false, output := none }, some current)
  | some h => ({ emit := true, output := some (current - h) }, some current)

/-- Modelled from the spec: drive the delta transform over a stream of
field values, collecting the outputs of emitted results in order. -/
def runDelta : Option Int → List Int → List Int
  | _, [] => []
  | hist, c :: rest =>
    match delta hist c with
    | ({ emit := true, output := some v }, h2) => v :: runDelta h2 rest
    | ({ emit := true, output := none }, h2) => runDelta h2 rest
    | ({ emit := false, output := _ }, h2) => runDelta h2 rest

/-- Modelled from the spec: decimal digit value of a character. -/
def digitVal (c : Char) : Option Nat :=
  if '0' ≤ c ∧ c ≤ '9' then some (c.toNat - '0'.toNat) else none

/-- Modelled from the spec: accumulate decimal digits of a numeric field. -/
def parseNatAux : Nat → List Char → Option Nat
  | acc, [] => some acc
  | acc, c :: rest =>
    match digitVal c with
    | some d => parseNatAux (acc * 10 + d) rest
    | none => none

/-- Modelled from the spec: parse a selected field as a (signed) decimal
integer; a non-numeric field yields none (ParseError, section 4.3). -/
def parseInt : List Char → Option Int
  | [] => none
  | '-' :: rest =>
    if rest = [] then none else (parseNatAux 0 rest).map (fun n => -(n : Int))
  | s => (parseNatAux 0 s).map (fun n => (n : Int))

/-- Render a natural number in decimal. -/
def renderNat (n : Nat) : List Char :=
  Nat.toDigits 10 n

/-- Render a signed integer in decimal. -/
def renderInt (i : Int) : List Char :=
  if i < 0 then '-' :: renderNat i.natAbs else renderNat i.toNat

/-- Modelled from the spec: the numdelta end-to-end pipeline — split the
input into lines, parse each line's value (skipping non-numeric lines per
the skip policy), run the delta transform, and print one emitted value
per line, newline-terminated (spec sections 4.3, 6 and 8). -/
def numdelta (input : List Char) : List Char :=
  ((runDelta none ((splitLines input).filterMap parseInt)).map
    (fun v => renderInt v ++ ['\n'])).flatten

theorem runDelta_none_cons (c : Int) (rest : List Int) :
    runDelta none (c :: rest) = runDelta (some c) rest := rfl

theorem runDelta_some_cons (h c : Int) (rest : List Int) :
    runDelta (some h) (c :: rest) = (c - h) :: runDelta (some c) rest := rfl

theorem runDelta_const (v : Int) (m : Nat) :
    runDelta (some v) (List.replicate m v) = List.replicate m 0 := by
  induction m with
  | zero => rfl
  | succ k ih =>
    rw [List.replicate_succ, runDelta_some_cons, ih, sub_self,
      List.replicate_succ]

/-- C3: the numeric delta transform — first invocation returns emit=false
and sets history to current; later invocations return emit=true with
output = current − history and update history; a constant stream of
length N emits exactly N−1 zero lines; and the input `"10\n20\n20\n5\n"`
emits exactly `"10\n0\n-15\n"`. -/
theorem delta_transform_spec :
    (∀ c : Int, delta none c = ({ emit := false, output := none }, some c)) ∧
    (∀ h c : Int, delta (some h) c =
      ({ emit := true, output := some (c - h) }, some c)) ∧
    (∀ v : Int, ∀ n : Nat,
      runDelta none (List.replicate n v) = List.replicate (n - 1) 0) ∧
    numdelta "10\n20\n20\n5\n".data = "10\n0\n-15\n".data := by
  refine ⟨fun c => rfl, fun h c => rfl, ?_, ?_⟩
  · intro v n
    cases n with
    | zero => rfl
    | succ k =>
      rw [List.replicate_succ, runDelta_none_cons, runDelta_const]
      simp
  · decide

/-- Modelled from the spec: separator characters of the whitespace-run
policy (conventional word-splitting, section 4.2). -/
def isSep (c : Char) : Bool :=
  c == ' ' || c == '\t' || c == '\n' || c == '\r'

/-- Modelled from the spec: whitespace-run splitting accumulator — runs of
separators collapse, so no empty leading or trailing fields arise. -/
def splitWsAux : List Char → List Char → List (List Char)
  | acc, [] => if acc.isEmpty then [] else [acc.reverse]
  | acc, c :: rest =>
    if isSep c then
      if acc.isEmpty then splitWsAux [] rest
      else acc.reverse :: splitWsAux [] rest
    else splitWsAux (c :: acc) rest

/-- Modelled from the spec: the whitespace-run delimiter policy of
FieldExtractor (section 4.2). -/
def splitWhitespaceRun (s : List Char) : List (List Char) :=
  splitWsAux [] s

/-- Modelled from the spec: literal-string splitting accumulator.  The
fuel argument only bounds the number of steps (each step consumes at
least one input character, so `s.length` steps always suffice); it makes
the recursion structural. -/
def splitLitAux (d : List Char) : Nat → List Char → List Char → List (List Char)
  | _, acc, [] => [acc.reverse]
  | Nat.succ fuel, acc, c :: rest =>
    if d.isPrefixOf (c :: rest) then
      acc.reverse :: splitLitAux d fuel [] ((c :: rest).drop d.length)
    else splitLitAux d fuel (c :: acc) rest
  | 0, acc, s => [acc.reverse ++ s]

/-- Modelled from the spec: the literal-string delimiter policy of
FieldExtractor — never collapses, empty fields between adjacent
delimiters are preserved (section 4.2); an empty delimiter performs no
splitting. -/
def splitLiteral (d s : List Char) : List (List Char) :=
  if d.isEmpty then [s] else splitLitAux d s.length [] s

/-- C5: FieldExtractor splitting — under the whitespace-run policy,
splitting `"  a   b  c "` yields exactly `["a","b","c"]` (consecutive
separators collapse, no empty leading or trailing fields); under the
literal-string policy, splitting `"a,,b"` on `","` yields exactly
`["a","","b"]` (empty fields between adjacent delimiters preserved). -/
theorem fieldExtractor_split_spec :
    splitWhitespaceRun "  a   b  c ".data = [['a'], ['b'], ['c']] ∧
    splitLiteral ",".data "a,,b".data = [['a'], [], ['b']] := by
  constructor <;> decide

/-- Modelled from the spec: a pending context window (section 4.6) — the
snapshotted before-context, the first matched line, the lines already
absorbed into the merged window by overlap-merge, and the queue of
trailing lines collected since the most recent match (bounded by K). -/
structure Window where
  before : List Line
  matched : Line
  absorbed : List Line
  after : List Line
  deriving DecidableEq

/-- Modelled from the spec: an emitted (context-before, matched-line,
context-after) triple (section 4.6). -/
structure Triple where
  before : List Line
  matched : Line
  after : List Line
  deriving DecidableEq

/-- The triple emitted when a window is flushed: its after-context is
everything collected after the first match. -/
def Window.toTriple (w : Window) : Triple :=
  { before := w.before, matched := w.matched, after := w.absorbed ++ w.after }

/-- All lines of a triple in emission order. -/
def Triple.linesOf (t : Triple) : List Line :=
  t.before ++ t.matched :: t.after

/-- Modelled from the spec: ContextWindow state — the rolling before
buffer (most recent first, capped at K) and the pending window of the
Collecting-After state, if any (sections 3 and 4.6). -/
structure CWState where
  before : List Line
  pending : Option Window
  deriving DecidableEq

/-- Modelled from the spec: `feed(line, predicate)` — one step of the
ContextWindow state machine of section 4.6.  A match either opens a
window (snapshotting the before buffer) or merges into the pending one;
a non-matching line extends the pending after-queue, flushing once it
fills to K; every line is pushed into the rolling before buffer. -/
def feed (K : Nat) (pred : Line → Bool) (st : CWState) (line : Line) :
    CWState × List Triple :=
  let newBefore := (line :: st.before).take K
  if pred line then
    let w :=
      match st.pending with
      | none =>
          { before := st.before.reverse, matched := line
          , absorbed := [], after := [] }
      | some w0 =>
          { before := w0.before, matched := w0.matched
          , absorbed := w0.absorbed ++ w0.after ++ [line], after := [] }
    if K = 0 then ({ before := newBefore, pending := none }, [w.toTriple])
    else ({ before := newBefore, pending := some w }, [])
  else
    match st.pending with
    | none => ({ before := newBefore, pending := none }, [])
    | some w0 =>
      let w1 :=
        { before := w0.before, matched := w0.matched
        , absorbed := w0.absorbed, after := w0.after ++ [line] }
      if w1.after.length = K then
        ({ before := newBefore, pending := none }, [w1.toTriple])
      else ({ before := newBefore, pending := some w1 }, [])

/-- Feed a whole list of lines, collecting emitted triples in order. -/
def feedAll (K : Nat) (pred : Line → Bool) :
    CWState → List Line → CWState × List Triple
  | st, [] => (st, [])
  | st, l :: rest =>
    let p1 := feed K pred st l
    let p2 := feedAll K pred p1.1 rest
    (p2.1, p1.2 ++ p2.2)

/-- Modelled from the spec: run the ContextWindow over a complete input;
when the input ends, a still-pending window is flushed (section 4.6). -/
def runWindow (K : Nat) (pred : Line → Bool) (lines : List Line) : List Triple :=
  let p := feedAll K pred { before := [], pending := none } lines
  match p.1.pending with
  | none => p.2
  | some w => p.2 ++ [w.toTriple]

/-- The lines fed to the window in the C4 scenario: ordinals 0..n-1 with
empty content. -/
def mkLines (n : Nat) : List Line :=
  (List.range n).map (fun i => { ordinal := i, raw_text := [] })

/-- C4: ContextWindow overlap-merge — for ten input lines (ordinals 0..9)
with the predicate true on lines 3 and 5 and K=3, the two overlapping
windows merge into a single triple spanning lines 0..8 (before-context
0,1,2; matched line 3; after-context 4..8), and within that triple no
line appears more than once. -/
theorem contextWindow_overlap_merge :
    runWindow 3 (fun l => l.ordinal == 3 || l.ordinal == 5) (mkLines 10) =
      [{ before := [⟨0, []⟩, ⟨1, []⟩, ⟨2, []⟩], matched := ⟨3, []⟩
       , after := [⟨4, []⟩, ⟨5, []⟩, ⟨6, []⟩, ⟨7, []⟩, ⟨8, []⟩] }] ∧
    ∀ t ∈ runWindow 3 (fun l => l.ordinal == 3 || l.ordinal == 5) (mkLines 10),
      t.linesOf.Nodup := by
  constructor <;> decide

theorem feedAll_K0 (pred : Line → Bool) (lines : List Line) :
    feedAll 0 pred { before := [], pending := none } lines =
      ({ before := [], pending := none },
        (lines.filter pred).map
          (fun l => { before := [], matched := l, after := [] })) := by
  induction lines with
  | nil => rfl
  | cons l rest ih =>
    by_cases hp : pred l <;>
      simp [feedAll, feed, hp, ih, Window.toTriple, List.filter_cons]

/-- C6: ContextWindow with K=0 — every matching line yields a triple
containing only the matched line with empty before- and after-context,
behaviourally identical to plain filtering with no context windowing. -/
theorem contextWindow_K0 (pred : Line → Bool) (lines : List Line) :
    runWindow 0 pred lines =
      (lines.filter pred).map
        (fun l => { before := [], matched := l, after := [] }) := by
  simp [runWindow, feedAll_K0 pred lines]

/-- Modelled from the spec: the ContextWindow state invariant of
section 3 — the rolling before buffer, a pending window's snapshotted
before-context, and its after queue each hold at most K lines. -/
def CWInv (K : Nat) (st : CWState) : Prop :=
  st.before.length ≤ K ∧
  ∀ w, st.pending = some w → w.before.length ≤ K ∧ w.after.length ≤ K

/-- Strengthened invariant used for preservation: a stored pending window
has strictly fewer than K collected after-lines, since at K it flushes. -/
def CWInvS (K : Nat) (st : CWState) : Prop :=
  st.before.length ≤ K ∧
  ∀ w, st.pending = some w → w.before.length ≤ K ∧ w.after.length < K

/-- All states passed through while feeding a list of lines, the initial
and final states included. -/
def statesOf (K : Nat) (pred : Line → Bool) : CWState → List Line → List CWState
  | st, [] => [st]
  | st, l :: rest => st :: statesOf K pred (feed K pred st l).1 rest

theorem inv_of_invS (K : Nat) (st : CWState) (h : CWInvS K st) : CWInv K st :=
  ⟨h.1, fun w hw => ⟨(h.2 w hw).1, Nat.le_of_lt (h.2 w hw).2⟩⟩

theorem feed_preserves_inv (K : Nat) (pred : Line → Bool) (st : CWState)
    (line : Line) (h : CWInvS K st) : CWInvS K (feed K pred st line).1 := by
  obtain ⟨before, pending⟩ := st
  obtain ⟨hb, hp⟩ := h
  have hnb : ((line :: before).take K).length ≤ K := by
    simp [List.length_take]
  by_cases hpl : pred line
  · by_cases hK : K = 0
    · cases pending <;>
        exact ⟨by simp [feed, hpl, hK, List.length_take],
          fun w hw => by simp [feed, hpl, hK] at hw⟩
    · cases pending with
      | none =>
        refine ⟨by simp [feed, hpl, hK, List.length_take], fun w hw => ?_⟩
        simp [feed, hpl, hK] at hw
        subst hw
        exact ⟨by simpa using hb, Nat.pos_of_ne_zero hK⟩
      | some w0 =>
        refine ⟨by simp [feed, hpl, hK, List.length_take], fun w hw => ?_⟩
        simp [feed, hpl, hK] at hw
        subst hw
        exact ⟨(hp w0 rfl).1, Nat.pos_of_ne_zero hK⟩
  · cases pending with
    | none =>
      exact ⟨by simp [feed, hpl, List.length_take],
        fun w hw => by simp [feed, hpl] at hw⟩
    | some w0 =>
      by_cases hlen : w0.after.length + 1 = K
      · refine ⟨by simp [feed, hpl, hlen, List.length_take], fun w hw => ?_⟩
        simp [feed, hpl, hlen] at hw
      · refine ⟨by simp [feed, hpl, hlen, List.length_take], fun w hw => ?_⟩
        simp [feed, hpl, hlen] at hw
        subst hw
        refine ⟨(hp w0 rfl).1, ?_⟩
        have h2 : w0.after.length < K := (hp w0 rfl).2
        simp only [List.length_append, List.length_cons, List.length_nil]
        omega

theorem statesOf_inv (K : Nat) (pred : Line → Bool) (lines : List Line) :
    ∀ st : CWState, CWInvS K st → ∀ s ∈ statesOf K pred st lines, CWInv K s := by
  induction lines with
  | nil =>
    intro st h s hs
    simp [statesOf] at hs
    subst hs
    exact inv_of_invS K _ h
  | cons l rest ih =>
    intro st h s hs
    simp only [statesOf, List.mem_cons] at hs
    rcases hs with rfl | hs
    · exact inv_of_invS K s h
    · exact ih _ (feed_preserves_inv K pred st l h) s hs

theorem initState_invS (K : Nat) : CWInvS K { before := [], pending := none } :=
  ⟨Nat.zero_le K, fun _w hw => Option.noConfusion hw⟩

/-- C7: ContextWindow state invariant — at every point during a run the
before buffer and the after buffer hold at most K lines; a feed step
emits a triple exactly when the just-extended after queue reaches K lines
(with K=0 a match flushes immediately, its empty after queue already at
K); and a window still pending at end of input is flushed then. -/
theorem contextWindow_state_invariant :
    (∀ (K : Nat) (pred : Line → Bool) (lines : List Line) (s : CWState),
      s ∈ statesOf K pred { before := [], pending := none } lines →
      CWInv K s) ∧
    (∀ (K : Nat) (pred : Line → Bool) (st : CWState) (line : Line),
      (feed K pred st line).2 ≠ [] ↔
        (pred line = true ∧ K = 0) ∨
        (pred line = false ∧
          ∃ w, st.pending = some w ∧ w.after.length + 1 = K)) ∧
    (∀ (K : Nat) (pred : Line → Bool) (lines : List Line) (w : Window),
      (feedAll K pred { before := [], pending := none } lines).1.pending = some w →
      runWindow K pred lines =
        (feedAll K pred { before := [], pending := none } lines).2 ++
          [w.toTriple]) := by
  refine ⟨?_, ?_, ?_⟩
  · intro K pred lines s hs
    exact statesOf_inv K pred lines _ (initState_invS K) s hs
  · intro K pred st line
    obtain ⟨before, pending⟩ := st
    by_cases hpl : pred line
    · by_cases hK : K = 0 <;> cases pending <;> simp [feed, hpl, hK]
    · cases pending with
      | none => simp [feed, hpl]
      | some w0 =>
        by_cases hlen : w0.after.length + 1 = K
        · simp [feed, hpl, hlen]
        · simp [feed, hpl, hlen]
  · intro K pred lines w h
    simp [runWindow, h]

/-- Witness: the invariant at the initial state reached within a concrete
one-line run with K=1, and the end-of-input flush of its pending window. -/
theorem contextWindow_state_invariant_witness :
    CWInv 1 { before := [], pending := none } ∧
    runWindow 1 (fun _ => true) [⟨0, []⟩] =
      (feedAll 1 (fun _ => true) { before := [], pending := none }
        [⟨0, []⟩]).2 ++ [Window.toTriple ⟨[], ⟨0, []⟩, [], []⟩] :=
  ⟨contextWindow_state_invariant.1 1 (fun _ => true) [⟨0, []⟩]
      { before := [], pending := none } (by decide),
   contextWindow_state_invariant.2.2 1 (fun _ => true) [⟨0, []⟩]
      ⟨[], ⟨0, []⟩, [], []⟩ (by decide)⟩

/-- Modelled from the spec: the delimiter policy configuration value of
section 3 — exactly one of whitespace-run, literal-string or
regex-pattern per pipeline run. -/
inductive DelimiterPolicy where
  | whitespaceRun : DelimiterPolicy
  | literalString : List Char → DelimiterPolicy
  | regexPattern : List Char → DelimiterPolicy
  deriving DecidableEq

/-- Modelled from the spec: the construction-time error taxonomy of
section 7 — PatternError for a malformed delimiter regex, a config
validation error otherwise (e.g. unsupported hash algorithm name,
section 4.5). -/
inductive PipelineError where
  | patternError : PipelineError
  | configError : PipelineError
  deriving DecidableEq

/-- Modelled from the spec: well-formedness scan of a delimiter regex
(the spec fixes no regex dialect; malformedness is modelled concretely as
unbalanced grouping parentheses or a dangling trailing escape). -/
def patternScan : Nat → List Char → Bool
  | depth, [] => depth == 0
  | depth, '\\' :: rest =>
    match rest with
    | [] => false
    | _ :: rest2 => patternScan depth rest2
  | depth, '(' :: rest => patternScan (depth + 1) rest
  | depth, ')' :: rest => if depth == 0 then false else patternScan (depth - 1) rest
  | depth, _ :: rest => patternScan depth rest

/-- Modelled from the spec: pattern compilation, validated once at
pipeline construction (section 4.2); fails with PatternError when the
regex is malformed. -/
def compilePattern (p : List Char) : Except PipelineError (List Char) :=
  if patternScan 0 p then Except.ok p else Except.error PipelineError.patternError

/-- Modelled from the spec: the recognized hash algorithm names
(section 4.5: fast-nonCrypto or cryptographic). -/
def validAlgorithm (a : List Char) : Bool :=
  a == "fast".data || a == "crypto".data

/-- Modelled from the spec: the pipeline configuration of section 6 —
delimiter policy, context window size K and hash algorithm name. -/
structure PipelineConfig where
  policy : DelimiterPolicy
  contextK : Nat
  algorithm : List Char
  deriving DecidableEq

/-- Modelled from the spec: a constructed pipeline: the validated
configuration plus the compiled delimiter pattern when regex-based. -/
structure Pipeline where
  config : PipelineConfig
  compiled : Option (List Char)
  deriving DecidableEq

/-- Modelled from the spec: pipeline construction — pattern compilation
and configuration validation happen here, before any line is read
(sections 4.2, 4.5 and 7). -/
def buildPipeline (cfg : PipelineConfig) : Except PipelineError Pipeline :=
  match cfg.policy with
  | DelimiterPolicy.regexPattern p =>
    match compilePattern p with
    | Except.error e => Except.error e
    | Except.ok c =>
      if validAlgorithm cfg.algorithm then Except.ok { config := cfg, compiled := some c }
      else Except.error PipelineError.configError
  | DelimiterPolicy.literalString d =>
    if d.isEmpty then Except.error PipelineError.configError
    else if validAlgorithm cfg.algorithm then Except.ok { config := cfg, compiled := none }
    else Except.error PipelineError.configError
  | DelimiterPolicy.whitespaceRun =>
    if validAlgorithm cfg.algorithm then Except.ok { config := cfg, compiled := none }
    else Except.error PipelineError.configError

/-- Modelled from the spec: the field-extraction stage of a constructed
pipeline.  Regex-boundary splitting is abstracted as splitting on the
compiled pattern text: the spec fixes no regex dialect, and only the
construction-time behaviour matters for the claims settled here. -/
def splitFields (pl : Pipeline) (l : List Char) : List (List Char) :=
  match pl.config.policy with
  | DelimiterPolicy.whitespaceRun => splitWhitespaceRun l
  | DelimiterPolicy.literalString d => splitLiteral d l
  | DelimiterPolicy.regexPattern p => splitLiteral p l

/-- Modelled from the spec: run the pipeline — construction first; only
on success is the input read and split line by line (sections 4.7, 7). -/
def runPipeline (cfg : PipelineConfig) (input : List Char) :
    Except PipelineError (List (List (List Char))) :=
  match buildPipeline cfg with
  | Except.error e => Except.error e
  | Except.ok pl => Except.ok ((splitLines input).map (splitFields pl))

/-- C8: construction-time error atomicity — any error raised at pipeline
construction (malformed delimiter regex giving PatternError, or
configuration validation failure) aborts the run before any line is read
and before any output is produced: the run's result is exactly that
error, and it does not depend on the input at all. -/
theorem construction_error_atomicity :
    ∀ (cfg : PipelineConfig) (e : PipelineError),
      buildPipeline cfg = Except.error e →
      (∀ input : List Char, runPipeline cfg input = Except.error e) ∧
      (∀ input₁ input₂ : List Char,
        runPipeline cfg input₁ = runPipeline cfg input₂) := by
  intro cfg e h
  constructor
  · intro input
    simp [runPipeline, h]
  · intro input₁ input₂
    simp [runPipeline, h]

/-- Witness: a malformed regex `"("` makes construction fail with
PatternError, the run on a concrete input returns exactly that error, and
two different inputs give identical results. -/
theorem construction_error_atomicity_witness :
    runPipeline
      { policy := DelimiterPolicy.regexPattern ['(']
      , contextK := 3, algorithm := "fast".data } "abc".data =
      Except.error PipelineError.patternError ∧
    runPipeline
      { policy := DelimiterPolicy.regexPattern ['(']
      , contextK := 3, algorithm := "fast".data } "x".data =
    runPipeline
      { policy := DelimiterPolicy.regexPattern ['(']
      , contextK := 3, algorithm := "fast".data } "yz".data :=
  ⟨(construction_error_atomicity
      { policy := DelimiterPolicy.regexPattern ['(']
      , contextK := 3, algorithm := "fast".data }
      PipelineError.patternError rfl).1 "abc".data,
   (construction_error_atomicity
      { policy := DelimiterPolicy.regexPattern ['(']
      , contextK := 3, algorithm := "fast".data }
      PipelineError.patternError rfl).2 "x".data "yz".data⟩

/-- Modelled from the spec: `format_number` (section 4.4) — renders large
magnitudes with unit suffixes k/M/G at a fixed (integer) precision; small
magnitudes are rendered plainly. -/
def format_number (n : Int) : List Char :=
  let a := n.natAbs
  let sign : List Char := if n < 0 then ['-'] else []
  if a < 1000 then sign ++ renderNat a
  else if a < 1000000 then sign ++ renderNat (a / 1000) ++ ['k']
  else if a < 1000000000 then sign ++ renderNat (a / 1000000) ++ ['M']
  else sign ++ renderNat (a / 1000000000) ++ ['G']

/-- Two-digit zero-padded rendering of a calendar field. -/
def pad2 (n : Nat) : List Char :=
  if n < 10 then '0' :: renderNat n else renderNat n

/-- Modelled from the spec: civil date (year, month, day) from a count of
days since the Unix epoch (standard era-based calendar conversion). -/
def civilFromDays (z0 : Int) : Int × Nat × Nat :=
  let z := z0 + 719468
  let era := (if 0 ≤ z then z else z - 146096) / 146097
  let doe := (z - era * 146097).toNat
  let yoe := (doe - doe / 1460 + doe / 36524 - doe / 146096) / 365
  let doy := doe - (365 * yoe + yoe / 4 - yoe / 100)
  let mp := (5 * doy + 2) / 153
  let d := doy - (153 * mp + 2) / 5 + 1
  let m := if mp < 10 then mp + 3 else mp - 9
  (era * 400 + yoe + (if m ≤ 2 then 1 else 0), m, d)

/-- Modelled from the spec: `format_epoch` (section 4.4) — renders a Unix
epoch timestamp as a calendar timestamp in a configurable time zone,
given as an offset in seconds. -/
def format_epoch (tzOffset : Int) (epoch : Int) : List Char :=
  let t := epoch + tzOffset
  let days := (if 0 ≤ t then t else t - 86399) / 86400
  let secs := (t - days * 86400).toNat
  let ymd := civilFromDays days
  renderInt ymd.1 ++ '-' :: pad2 ymd.2.1 ++ '-' :: pad2 ymd.2.2 ++
    ' ' :: pad2 (secs / 3600) ++ ':' :: pad2 (secs % 3600 / 60) ++
    ':' :: pad2 (secs % 60)

/-- Modelled from the spec: the hash algorithm selector of section 4.5 —
a configuration option, never auto-detected. -/
inductive HashAlg where
  | fastNonCrypto : HashAlg
  | cryptographic : HashAlg
  deriving DecidableEq

/-- Modelled from the spec: the fast non-cryptographic fingerprint,
modelled as 64-bit FNV-1a over the character codes. -/
def fnv1a (s : List Char) : Nat :=
  s.foldl (fun h c => ((h ^^^ c.toNat) * 16777619) % (2 ^ 64))
    14695981039346656037

/-- Modelled from the spec: the cryptographic fingerprint, modelled as a
distinct 128-bit iterated mixing function (the spec names no concrete
algorithm; only determinism and digest distinctness matter here). -/
def mix128 (s : List Char) : Nat :=
  s.foldl (fun h c => (h * 1099511628211 + c.toNat + 7) % (2 ^ 128)) 5381

/-- Hex digit for a value below 16. -/
def hexDigit (n : Nat) : Char :=
  if n < 10 then Char.ofNat ('0'.toNat + n) else Char.ofNat ('a'.toNat + (n - 10))

/-- Hex rendering accumulator; the fuel bounds the number of digits. -/
def toHexAux : Nat → Nat → List Char
  | 0, _ => []
  | fuel + 1, n => if n = 0 then [] else toHexAux fuel (n / 16) ++ [hexDigit (n % 16)]

/-- Modelled from the spec: hex-encoded digest text (section 4.5). -/
def toHex (n : Nat) : List Char :=
  if n = 0 then ['0'] else toHexAux 40 n

/-- Modelled from the spec: `hash_field(text, algorithm)` — hex-encoded
digest of the text under the selected algorithm (section 4.5). -/
def hash_field (alg : HashAlg) (text : List Char) : List Char :=
  match alg with
  | HashAlg.fastNonCrypto => toHex (fnv1a text)
  | HashAlg.cryptographic => toHex (mix128 text)

/-- Modelled from the spec: the hashfilt deduplication loop — a line
whose digest was already seen is suppressed (sections 4.5 and 8). -/
def dedupAux (alg : HashAlg) (seen : List (List Char)) :
    List (List Char) → List (List Char)
  | [] => []
  | l :: rest =>
    if seen.contains (hash_field alg l) then dedupAux alg seen rest
    else l :: dedupAux alg (hash_field alg l :: seen) rest

/-- Modelled from the spec: hashfilt in deduplication mode over a whole
stream of lines. -/
def hashfiltDedup (alg : HashAlg) (lines : List (List Char)) : List (List Char) :=
  dedupAux alg [] lines

/-- C9: the pure transforms are deterministic with no hidden state — equal
inputs under equal configuration give equal outputs for format_number,
format_epoch and hash_field; in particular two lines with identical
content resolve to the same digest, and in deduplication mode the second
of two identical lines is suppressed. -/
theorem pure_transforms_deterministic :
    (∀ n₁ n₂ : Int, n₁ = n₂ → format_number n₁ = format_number n₂) ∧
    (∀ tz e₁ e₂ : Int, e₁ = e₂ → format_epoch tz e₁ = format_epoch tz e₂) ∧
    (∀ (alg : HashAlg) (s t : List Char), s = t →
      hash_field alg s = hash_field alg t) ∧
    (∀ (alg : HashAlg) (x : List Char), hashfiltDedup alg [x, x] = [x]) := by
  refine ⟨fun n₁ n₂ h => by rw [h], fun tz e₁ e₂ h => by rw [h],
    fun alg s t h => by rw [h], ?_⟩
  intro alg x
  simp [hashfiltDedup, dedupAux]

/-- Witness: determinism applied at concrete inputs, and deduplication of
a concrete repeated line. -/
theorem pure_transforms_deterministic_witness :
    format_number 1500 = format_number 1500 ∧
    format_epoch 0 86400 = format_epoch 0 86400 ∧
    hash_field HashAlg.fastNonCrypto "ab".data =
      hash_field HashAlg.fastNonCrypto "ab".data ∧
    hashfiltDedup HashAlg.cryptographic ["x".data, "x".data] = ["x".data] :=
  ⟨pure_transforms_deterministic.1 1500 1500 rfl,
   pure_transforms_deterministic.2.1 0 86400 86400 rfl,
   pure_transforms_deterministic.2.2.1 HashAlg.fastNonCrypto "ab".data "ab".data rfl,
   pure_transforms_deterministic.2.2.2 HashAlg.cryptographic "x".data⟩

/-- Witness: the no-duplicate invariant of the merged triple, applied at
the single triple the C4 run emits. -/
theorem contextWindow_overlap_merge_witness :
    (Triple.linesOf
      { before := [⟨0, []⟩, ⟨1, []⟩, ⟨2, []⟩], matched := ⟨3, []⟩
      , after := [⟨4, []⟩, ⟨5, []⟩, ⟨6, []⟩, ⟨7, []⟩, ⟨8, []⟩] }).Nodup :=
  contextWindow_overlap_merge.2
    { before := [⟨0, []⟩, ⟨1, []⟩, ⟨2, []⟩], matched := ⟨3, []⟩
    , after := [⟨4, []⟩, ⟨5, []⟩, ⟨6, []⟩, ⟨7, []⟩, ⟨8, []⟩] } (by decide)
